import Mathlib

/-! Verification development of `src/mtop.c`, the terminal dashboard `mtop`.

Shallow embedding of the sampling, snapshot and selection logic of the
terminal dashboard `mtop`, with theorems about it.

Conventions of the embedding.

* C `int` values (`selected`, `start_index`, `total_processes`, `LINES`) are
  `Int`.  In every state the loop of `main` reaches, `selected` and
  `start_index` lie between `0` and `MAX_PROCESSES + 6`, far inside the `int`
  range, so no wrap-around is modelled for the view arithmetic.
* C `unsigned long long` / `unsigned long` values are `Nat` below `2 ^ 64`, and
  every subtraction and sum of the source is reduced modulo `2 ^ 64`.
* The `float` results of the three samplers are taken over exact rationals
  (`ℚ`): the rounding of the C `float` arithmetic is not modelled.
* File contents reach the functions as already tokenised values: what
  `fopen`, `fscanf`, `sscanf`, `fread`, `statvfs`, `readdir` and `atoi`
  delivered.
-/

namespace Mtop

/-! ## Selection and scrolling (`main`, lines 159-209) -/

/-- The two `int` locals of `main` that survive from tick to tick. -/
structure ViewState where
  selected : Int
  start_index : Int
  deriving DecidableEq, Repr

/-- Lines 182-185 of `main`: four `if` statements run in order on
`selected` and `start_index`, against `total_processes` and
`max_rows = LINES - 6`. -/
def reconcile (v : ViewState) (total_processes max_rows : Int) : ViewState :=
  let selected := v.selected
  let start_index := v.start_index
  let selected := if selected ≥ total_processes then total_processes - 1 else selected
  let selected := if selected < 0 then 0 else selected
  let start_index := if start_index > selected then selected else start_index
  let start_index :=
    if selected ≥ start_index + max_rows then selected - max_rows + 1 else start_index
  { selected := selected, start_index := start_index }

/-- What `getch()` returned, as far as the dispatch of lines 201-209 tells
keys apart.  `other` covers every other key and the `ERR` of a timeout. -/
inductive Key where
  | quit
  | up
  | down
  | enter
  | other
  deriving DecidableEq, Repr

/-- Line 204, the body of the `KEY_UP` branch. -/
def move_up (selected : Int) : Int :=
  if selected > 0 then selected - 1 else selected

/-- Line 206, the body of the `KEY_DOWN` branch. -/
def move_down (total_processes selected : Int) : Int :=
  if selected < total_processes - 1 then selected + 1 else selected

/-- Lines 203-209: the effect of a key that does not leave the loop on
`selected`.  `show_details` only reads the selected record. -/
def handle_key (ch : Key) (total_processes selected : Int) : Int :=
  match ch with
  | Key.up => move_up selected
  | Key.down => move_down total_processes selected
  | _ => selected

/-- The `KEY_DOWN` branch taken `k` times in a row with the same
`total_processes`. -/
def move_down_times (total_processes : Int) : Nat → Int → Int
  | 0, selected => selected
  | k + 1, selected => move_down_times total_processes k (move_down total_processes selected)

/-- What one pass of the `while(1)` body takes from outside: the snapshot
length left by `read_processes`, the terminal height `LINES`, and the key. -/
structure Tick where
  total_processes : Int
  lines : Int
  ch : Key
  deriving DecidableEq, Repr

/-- The view state that the drawing loop of lines 188-195 uses in a tick,
with the snapshot length and `max_rows` of that tick. -/
structure Painted where
  view : ViewState
  total_processes : Int
  max_rows : Int
  deriving DecidableEq, Repr

/-- The `while(1)` loop of `main` restricted to the view state: reconcile,
paint, read a key, dispatch; `q` leaves the loop.  Returns the painted states
in order. -/
def main_loop : ViewState → List Tick → List Painted
  | _, [] => []
  | v, t :: rest =>
    let max_rows := t.lines - 6
    let v1 := reconcile v t.total_processes max_rows
    let p : Painted := { view := v1, total_processes := t.total_processes, max_rows := max_rows }
    if t.ch = Key.quit then [p]
    else
      p :: main_loop { v1 with selected := handle_key t.ch t.total_processes v1.selected } rest

/-- Lines 159-160: the initial values of `selected` and `start_index`. -/
def view_initial : ViewState := { selected := 0, start_index := 0 }

/-- The invariant of the view state at painting time. -/
def view_ok (p : Painted) : Prop :=
  0 ≤ p.view.selected ∧ p.view.selected < max p.total_processes 1 ∧
  0 ≤ p.view.start_index ∧ p.view.start_index ≤ p.view.selected ∧
  p.view.selected < p.view.start_index + p.max_rows

/-! ## Metric samplers (lines 25-67) -/

/-- The modulus of `unsigned long long` and, on the LP64 targets `mtop` is
built for, of `unsigned long`. -/
def U64 : Nat := 2 ^ 64

/-- Unsigned subtraction `a - b` of C: the residue of the difference
modulo `2 ^ 64`. -/
def usub (a b : Nat) : Nat := (a + (U64 - b % U64)) % U64

/-- Unsigned addition `a + b` of C. -/
def uadd (a b : Nat) : Nat := (a + b) % U64

/-- The four cumulative counters of the `cpu` line of `/proc/stat`; also
the four globals `prev_user`, `prev_nice`, `prev_system`, `prev_idle`. -/
structure CpuCounters where
  user : Nat
  nice : Nat
  system : Nat
  idle : Nat
  deriving DecidableEq, Repr

/-- Line 25: the globals start at zero. -/
def cpu_initial : CpuCounters := { user := 0, nice := 0, system := 0, idle := 0 }

/-- The function `get_cpu_usage` (lines 28-42).  `stat` is `none` when `fopen`
fails and otherwise holds the four values of the locals after `fscanf`.
Returns the percentage and the new value of the four globals. -/
def get_cpu_usage (prev : CpuCounters) (stat : Option CpuCounters) : ℚ × CpuCounters :=
  match stat with
  | none => (0, prev)
  | some cur =>
    let d_user := usub cur.user prev.user
    let d_nice := usub cur.nice prev.nice
    let d_system := usub cur.system prev.system
    let d_idle := usub cur.idle prev.idle
    let total := uadd (uadd (uadd d_user d_nice) d_system) d_idle
    if total = 0 then (0, cur)
    else ((uadd (uadd d_user d_nice) d_system : ℚ) * 100 / (total : ℚ), cur)

/-- The reference definition of the CPU percentage in the words of the
specification, over exact naturals and rationals:
`busy = d_user + d_nice + d_system`, `total = busy + d_idle`, result
`busy * 100 / total`, or `0` if `total = 0`. -/
def cpu_percent_reference (d_user d_nice d_system d_idle : Nat) : ℚ :=
  let busy := d_user + d_nice + d_system
  let total := busy + d_idle
  if total = 0 then 0 else (busy : ℚ) * 100 / (total : ℚ)

/-- How `sscanf` classifies one line of `/proc/meminfo` in the loop of
lines 50-53. -/
inductive MemLine where
  | mem_total (kb : Nat)
  | mem_available (kb : Nat)
  | unrelated
  deriving DecidableEq, Repr

/-- The `while(fgets(...))` loop of lines 50-53 on the pair
`(mem_total, mem_available)`: a `MemTotal` line stores and continues, a
`MemAvailable` line stores and leaves the loop. -/
def scan_meminfo : List MemLine → Nat × Nat → Nat × Nat
  | [], acc => acc
  | MemLine.mem_total kb :: rest, acc => scan_meminfo rest (kb, acc.2)
  | MemLine.mem_available kb :: _, acc => (acc.1, kb)
  | MemLine.unrelated :: rest, acc => scan_meminfo rest acc

/-- The function `get_ram_usage` (lines 45-57).  `meminfo` is `none` when
`fopen` fails, otherwise the lines of the file. -/
def get_ram_usage (meminfo : Option (List MemLine)) : ℚ :=
  match meminfo with
  | none => 0
  | some lines =>
    let r := scan_meminfo lines (0, 0)
    let mem_total := r.1
    let mem_available := r.2
    if mem_total = 0 then 0
    else (usub mem_total mem_available : ℚ) * 100 / (mem_total : ℚ)

/-- The function `get_disk_usage` (lines 60-67).  `fs` is `none` when
`statvfs` fails, otherwise `(f_blocks, f_bfree)`. -/
def get_disk_usage (fs : Option (Nat × Nat)) : ℚ :=
  match fs with
  | none => 0
  | some (f_blocks, f_bfree) =>
    let total := f_blocks
    let free := f_bfree
    if total = 0 then 0 else (usub total free : ℚ) * 100 / (total : ℚ)

/-! ## Process snapshot (`read_processes`, lines 70-114) -/

/-- The constant `MAX_PROCESSES`. -/
def MAX_PROCESSES : Nat := 1024

/-- The struct `Process`. -/
structure Process where
  pid : Int
  name : List Char
  cmdline : List Char
  state : Char
  deriving DecidableEq, Repr

/-- The condition of the `if` of line 92:
`len > 2 && comm[0] == '(' && comm[len-1] == ')'`. -/
def wrapped (comm : List Char) : Bool :=
  decide (comm.length > 2) && (comm[0]? == some '(') && (comm[comm.length - 1]? == some ')')

/-- Lines 91-95: `comm[len-1] = 0` cuts the last character, then
`memmove(comm, comm+1, len-1)` shifts the rest one place to the left. -/
def normalize (comm : List Char) : List Char :=
  if wrapped comm then (comm.take (comm.length - 1)).drop 1 else comm

/-- A name with two pairs of enclosing parentheses: more than 4 characters,
beginning with two opening and ending with two closing parentheses. -/
def doubly_wrapped (comm : List Char) : Bool :=
  decide (comm.length > 4) && (comm[0]? == some '(') && (comm[1]? == some '(')
    && (comm[comm.length - 2]? == some ')') && (comm[comm.length - 1]? == some ')')

/-- What opening and scanning `/proc/<pid>/stat` delivered (lines 80-85).
`cannot_open`: `fopen` returned `NULL`.  `scanned assigned pid comm state`:
the file opened; `assigned` is the return value of `fscanf` (`0` for `EOF`),
which the source discards, and `pid`, `comm`, `state` are the contents of the
three locals after the call.  A local that `fscanf` did not assign keeps what
it held before: for `comm` and `state`, which are not initialised, that is
whatever the stack slot contained. -/
inductive StatRead where
  | cannot_open
  | scanned (assigned : Nat) (pid : Int) (comm : List Char) (state : Char)
  deriving DecidableEq, Repr

/-- One `readdir` entry of `/proc` with what the loop body reads for it:
`atoi(entry->d_name)`, the status record, and the bytes of
`/proc/<pid>/cmdline` (`none` when that file cannot be opened). -/
structure DirEntry where
  atoi_name : Int
  stat : StatRead
  cmdline : Option (List Char)
  deriving DecidableEq, Repr

/-- The globals written by `read_processes`: the filled part
`processes[0 .. total_processes-1]` of the array and `zombie_count`. -/
structure ProcTable where
  processes : List Process
  zombie_count : Nat
  deriving DecidableEq, Repr

/-- The global `total_processes`. -/
def ProcTable.total_processes (t : ProcTable) : Nat := t.processes.length

/-- Lines 101-110: `fread` of at most 255 bytes, or the empty string. -/
def read_cmdline (cmdline : Option (List Char)) : List Char :=
  match cmdline with
  | some bytes => bytes.take 255
  | none => []

/-- The `while((entry=readdir(dir)))` loop of lines 75-112. -/
def read_loop : List DirEntry → ProcTable → ProcTable
  | [], t => t
  | e :: rest, t =>
    if e.atoi_name ≤ 0 then read_loop rest t
    else if t.total_processes ≥ MAX_PROCESSES then t
    else
      match e.stat with
      | StatRead.cannot_open => read_loop rest t
      | StatRead.scanned assigned pid comm state =>
        let pid := if assigned ≥ 1 then pid else e.atoi_name
        let zombie_count := if state = 'Z' then t.zombie_count + 1 else t.zombie_count
        let p : Process :=
          { pid := pid, name := normalize comm, cmdline := read_cmdline e.cmdline, state := state }
        read_loop rest { processes := t.processes ++ [p], zombie_count := zombie_count }

/-- The function `read_processes` (lines 70-114): both counters are reset and
the loop runs over the entries of `/proc`. -/
def read_processes (entries : List DirEntry) : ProcTable :=
  read_loop entries { processes := [], zombie_count := 0 }

/-- The number of records of a snapshot whose state is `'Z'`. -/
def count_zombies (processes : List Process) : Nat :=
  processes.countP (fun p => p.state = 'Z')

/-- Lines 20-22: the globals before the first tick. -/
def table_initial : ProcTable := { processes := [], zombie_count := 0 }

/-- What a tick paints of the snapshot: the number on the `ZOMBIES:` line
and the snapshot whose rows the drawing loop walks. -/
structure Frame where
  zombies_line : Nat
  snapshot : List Process
  deriving DecidableEq, Repr

/-- One pass of the loop body of `main`, lines 163-195, restricted to the
process table: line 173 prints the global `zombie_count`, line 179 then calls
`read_processes`, and lines 188-195 draw rows of the new table. -/
def paint_tick (t : ProcTable) (entries : List DirEntry) : Frame × ProcTable :=
  let zombies_line := t.zombie_count
  let t1 := read_processes entries
  ({ zombies_line := zombies_line, snapshot := t1.processes }, t1)

/-- The frames painted by consecutive ticks, each with its own `/proc`
enumeration. -/
def paint_ticks : ProcTable → List (List DirEntry) → List Frame
  | _, [] => []
  | t, entries :: rest => (paint_tick t entries).1 :: paint_ticks (paint_tick t entries).2 rest

instance view_ok_decidable (p : Painted) : Decidable (view_ok p) := by
  unfold view_ok
  infer_instance

/-! # Theorems -/

/-! ### Theorems on selection and scrolling -/

theorem reconcile_selected_range (v : ViewState) (n h : Int) :
    0 ≤ (reconcile v n h).selected ∧ (reconcile v n h).selected < max n 1 := by
  simp only [reconcile]
  split_ifs <;> constructor <;> omega

theorem reconcile_window (v : ViewState) (n h : Int) (hh : 1 ≤ h) :
    (reconcile v n h).start_index ≤ (reconcile v n h).selected ∧
    (reconcile v n h).selected < (reconcile v n h).start_index + h := by
  simp only [reconcile]
  split_ifs <;> constructor <;> omega

theorem reconcile_start_nonneg (v : ViewState) (n h : Int) (hh : 1 ≤ h)
    (hs : 0 ≤ v.start_index) : 0 ≤ (reconcile v n h).start_index := by
  simp only [reconcile]
  split_ifs <;> omega

/-- C1 (as amended): for every snapshot length `N ≥ 0`, every prior pair
`(selected, start_index)` and every viewport height `max_rows ≥ 1`, the
reconcile step yields `0 ≤ selected' < max N 1`, `start_index' ≤ selected'`
and, when `N > 0`, `selected' < start_index' + max_rows`. -/
theorem reconcile_contract (v : ViewState) (n h : Int) (_hn : 0 ≤ n) (hh : 1 ≤ h) :
    0 ≤ (reconcile v n h).selected ∧ (reconcile v n h).selected < max n 1 ∧
    (reconcile v n h).start_index ≤ (reconcile v n h).selected ∧
    (0 < n → (reconcile v n h).selected < (reconcile v n h).start_index + h) :=
  ⟨(reconcile_selected_range v n h).1, (reconcile_selected_range v n h).2,
    (reconcile_window v n h hh).1, fun _ => (reconcile_window v n h hh).2⟩

/-- The scenario of C1: the snapshot shrank from 50 records to 3 while
`selected = 40` and the window started at 35, on a terminal of 16 lines. -/
theorem reconcile_contract_witness :
    (0 : Int) ≤ 3 ∧ (1 : Int) ≤ 16 - 6 ∧
    reconcile { selected := 40, start_index := 35 } 3 (16 - 6)
      = { selected := 2, start_index := 2 } ∧
    (0 ≤ (reconcile { selected := 40, start_index := 35 } 3 (16 - 6)).selected ∧
      (reconcile { selected := 40, start_index := 35 } 3 (16 - 6)).selected < max 3 1 ∧
      (reconcile { selected := 40, start_index := 35 } 3 (16 - 6)).start_index
        ≤ (reconcile { selected := 40, start_index := 35 } 3 (16 - 6)).selected ∧
      ((0 : Int) < 3 → (reconcile { selected := 40, start_index := 35 } 3 (16 - 6)).selected
        < (reconcile { selected := 40, start_index := 35 } 3 (16 - 6)).start_index + (16 - 6))) :=
  ⟨by decide, by decide, by decide,
    reconcile_contract { selected := 40, start_index := 35 } 3 (16 - 6) (by decide) (by decide)⟩

/-- C1 as stated fails on a terminal of 6 lines (`max_rows = 0`): with
`N = 3` and prior `selected = 40`, `start_index = 35` the step yields
`selected' = 2` and `start_index' = 3`, so `start_index' ≤ selected'` is
false. -/
theorem reconcile_contract_fails_at_zero_height :
    reconcile { selected := 40, start_index := 35 } 3 (6 - 6)
      = { selected := 2, start_index := 3 } ∧
    ¬ ((reconcile { selected := 40, start_index := 35 } 3 (6 - 6)).start_index
        ≤ (reconcile { selected := 40, start_index := 35 } 3 (6 - 6)).selected) := by
  decide

theorem handle_key_start_index (v : ViewState) (ch : Key) (n : Int) :
    ({ v with selected := handle_key ch n v.selected } : ViewState).start_index
      = v.start_index := rfl

theorem main_loop_view_ok (ticks : List Tick) :
    ∀ v : ViewState, 0 ≤ v.start_index →
      (∀ t ∈ ticks, 0 ≤ t.total_processes ∧ t.total_processes ≤ 1024 ∧ 1 ≤ t.lines - 6) →
      ∀ p ∈ main_loop v ticks, view_ok p := by
  induction ticks with
  | nil => intro v _ _ p hp; simp [main_loop] at hp
  | cons t rest ih =>
    intro v hv hticks p hp
    have ht := hticks t (List.mem_cons_self t rest)
    have hrest : ∀ u ∈ rest, 0 ≤ u.total_processes ∧ u.total_processes ≤ 1024 ∧ 1 ≤ u.lines - 6 :=
      fun u hu => hticks u (List.mem_cons_of_mem t hu)
    have hsel := reconcile_selected_range v t.total_processes (t.lines - 6)
    have hwin := reconcile_window v t.total_processes (t.lines - 6) ht.2.2
    have hst := reconcile_start_nonneg v t.total_processes (t.lines - 6) ht.2.2 hv
    have hhead : view_ok (Painted.mk (reconcile v t.total_processes (t.lines - 6))
        t.total_processes (t.lines - 6)) :=
      ⟨hsel.1, hsel.2, hst, hwin.1, hwin.2⟩
    simp only [main_loop] at hp
    split_ifs at hp with hq
    · rw [List.mem_singleton] at hp
      rw [hp]; exact hhead
    · rcases List.mem_cons.mp hp with hp | hp
      · rw [hp]; exact hhead
      · refine ih _ ?_ hrest p hp
        exact hst

theorem main_loop_length (ticks : List Tick) :
    ∀ v : ViewState, (∀ t ∈ ticks, t.ch ≠ Key.quit) →
      (main_loop v ticks).length = ticks.length := by
  induction ticks with
  | nil => intro v _; rfl
  | cons t rest ih =>
    intro v hq
    have ht : t.ch ≠ Key.quit := hq t (List.mem_cons_self t rest)
    simp only [main_loop, if_neg ht, List.length_cons]
    rw [ih _ (fun u hu => hq u (List.mem_cons_of_mem t hu))]

/-- C2: starting from `selected = 0`, `start_index = 0`, for every finite
sequence of ticks, each with a snapshot length in `0..1024`, a viewport height
`LINES - 6 ≥ 1` and any key, the state used for painting in every tick
satisfies `0 ≤ selected < max N 1` and
`0 ≤ start_index ≤ selected < start_index + max_rows`; and when no key of
the sequence is `q`, every tick of the sequence paints. -/
theorem main_loop_view_invariant (ticks : List Tick)
    (hticks : ∀ t ∈ ticks, 0 ≤ t.total_processes ∧ t.total_processes ≤ 1024 ∧ 1 ≤ t.lines - 6) :
    (∀ p ∈ main_loop view_initial ticks, view_ok p) ∧
    ((∀ t ∈ ticks, t.ch ≠ Key.quit) →
      (main_loop view_initial ticks).length = ticks.length) :=
  ⟨main_loop_view_ok ticks view_initial (le_refl 0) hticks, main_loop_length ticks view_initial⟩

/-- A run of three ticks for C2: five processes on a 9-line terminal with
`KEY_DOWN` twice, then the table shrinks to one process on an 8-line
terminal. -/
theorem main_loop_view_invariant_witness :
    (∀ t ∈ [({ total_processes := 5, lines := 9, ch := Key.down } : Tick),
            { total_processes := 5, lines := 9, ch := Key.down },
            { total_processes := 1, lines := 8, ch := Key.enter }],
        0 ≤ t.total_processes ∧ t.total_processes ≤ 1024 ∧ 1 ≤ t.lines - 6) ∧
    main_loop view_initial
        [{ total_processes := 5, lines := 9, ch := Key.down },
         { total_processes := 5, lines := 9, ch := Key.down },
         { total_processes := 1, lines := 8, ch := Key.enter }]
      = [{ view := { selected := 0, start_index := 0 }, total_processes := 5, max_rows := 3 },
         { view := { selected := 1, start_index := 0 }, total_processes := 5, max_rows := 3 },
         { view := { selected := 0, start_index := 0 }, total_processes := 1, max_rows := 2 }] ∧
    (∀ p ∈ main_loop view_initial
        [{ total_processes := 5, lines := 9, ch := Key.down },
         { total_processes := 5, lines := 9, ch := Key.down },
         { total_processes := 1, lines := 8, ch := Key.enter }], view_ok p) :=
  ⟨by decide, by decide,
    (main_loop_view_invariant
      [{ total_processes := 5, lines := 9, ch := Key.down },
       { total_processes := 5, lines := 9, ch := Key.down },
       { total_processes := 1, lines := 8, ch := Key.enter }] (by decide)).1⟩

theorem move_down_range (n s : Int) (h0 : 0 ≤ s) (h1 : s < n) :
    0 ≤ move_down n s ∧ move_down n s < n := by
  unfold move_down
  split_ifs <;> omega

theorem move_down_times_eq (n : Int) (k : Nat) :
    ∀ s : Int, 0 ≤ s → s < n → move_down_times n k s = min (s + k) (n - 1) := by
  induction k with
  | zero =>
    intro s _ h1
    simp only [move_down_times, Nat.cast_zero, add_zero]
    omega
  | succ k ih =>
    intro s h0 h1
    have hr := move_down_range n s h0 h1
    rw [move_down_times, ih _ hr.1 hr.2]
    unfold move_down
    push_cast
    split_ifs <;> omega

/-- C8: for every snapshot length `N ≥ 0` and every `selected` with
`0 ≤ selected < max N 1`, the `KEY_DOWN` transition yields
`min (selected + 1) (N - 1)` when `N ≥ 1` and leaves `selected` unchanged when
`N = 0`; the `KEY_UP` transition yields `max (selected - 1) 0`; and for
`N ≥ 1`, `k` move-downs from `selected` end at `min (selected + k) (N - 1)`,
which never exceeds `N - 1`.  Ten move-downs with `N = 5` from `0` end at
`4`. -/
theorem cursor_movement_bounded (n s : Int) (k : Nat) (_hn : 0 ≤ n) (h0 : 0 ≤ s)
    (h1 : s < max n 1) :
    (1 ≤ n → handle_key Key.down n s = min (s + 1) (n - 1)) ∧
    (n = 0 → handle_key Key.down n s = s) ∧
    handle_key Key.up n s = max (s - 1) 0 ∧
    (1 ≤ n → move_down_times n k s = min (s + k) (n - 1)) ∧
    (1 ≤ n → move_down_times n k s ≤ n - 1) ∧
    move_down_times 5 10 0 = 4 := by
  refine ⟨?_, ?_, ?_, ?_, ?_, by decide⟩
  · intro hn
    simp only [handle_key, move_down]
    split_ifs <;> omega
  · intro hn
    simp only [handle_key, move_down]
    split_ifs <;> omega
  · simp only [handle_key, move_up]
    split_ifs <;> omega
  · intro hn
    exact move_down_times_eq n k s h0 (by omega)
  · intro hn
    rw [move_down_times_eq n k s h0 (by omega)]
    omega

/-- The scenario of C8: snapshot length 5, cursor at 0, `KEY_DOWN` ten
times. -/
theorem cursor_movement_bounded_witness :
    (0 : Int) ≤ 5 ∧ (0 : Int) ≤ 0 ∧ (0 : Int) < max 5 1 ∧
    ((1 : Int) ≤ 5 → handle_key Key.down 5 0 = min (0 + 1) (5 - 1)) ∧
    ((5 : Int) = 0 → handle_key Key.down 5 0 = 0) ∧
    handle_key Key.up 5 0 = max (0 - 1) 0 ∧
    ((1 : Int) ≤ 5 → move_down_times 5 10 0 = min (0 + (10 : Nat)) (5 - 1)) ∧
    ((1 : Int) ≤ 5 → move_down_times 5 10 0 ≤ 5 - 1) ∧
    move_down_times 5 10 0 = 4 :=
  ⟨by decide, by decide, by decide,
    cursor_movement_bounded 5 0 10 (by decide) (by decide) (by decide)⟩

/-! ### Theorems on the metric samplers -/

theorem usub_of_le (a b : Nat) (hb : b ≤ a) (hd : a - b < U64) : usub a b = a - b := by
  unfold usub U64 at *
  omega

theorem usub_self (a : Nat) : usub a a = 0 := by
  unfold usub U64
  omega

theorem uadd_of_lt (a b : Nat) (h : a + b < U64) : uadd a b = a + b := by
  unfold uadd
  exact Nat.mod_eq_of_lt h

theorem cpu_percent_reference_range (u n s i : Nat) :
    0 ≤ cpu_percent_reference u n s i ∧ cpu_percent_reference u n s i ≤ 100 := by
  unfold cpu_percent_reference
  simp only
  split_ifs with h
  · constructor <;> norm_num
  · have hpos : (0 : ℚ) < ((u + n + s + i : Nat) : ℚ) := by
      exact_mod_cast Nat.pos_of_ne_zero h
    have hle : ((u + n + s : Nat) : ℚ) ≤ ((u + n + s + i : Nat) : ℚ) := by
      exact_mod_cast Nat.le_add_right _ _
    have hnn : (0 : ℚ) ≤ ((u + n + s : Nat) : ℚ) := by positivity
    constructor
    · apply div_nonneg
      · positivity
      · exact le_of_lt hpos
    · rw [div_le_iff₀ hpos]
      nlinarith

theorem get_cpu_usage_eq_reference (prev cur : CpuCounters)
    (hu : prev.user ≤ cur.user) (hn : prev.nice ≤ cur.nice)
    (hs : prev.system ≤ cur.system) (hi : prev.idle ≤ cur.idle)
    (hsum : (cur.user - prev.user) + (cur.nice - prev.nice) + (cur.system - prev.system)
      + (cur.idle - prev.idle) < U64) :
    (get_cpu_usage prev (some cur)).1
      = cpu_percent_reference (cur.user - prev.user) (cur.nice - prev.nice)
          (cur.system - prev.system) (cur.idle - prev.idle) := by
  have e1 := usub_of_le cur.user prev.user hu (by omega)
  have e2 := usub_of_le cur.nice prev.nice hn (by omega)
  have e3 := usub_of_le cur.system prev.system hs (by omega)
  have e4 := usub_of_le cur.idle prev.idle hi (by omega)
  have a1 := uadd_of_lt (cur.user - prev.user) (cur.nice - prev.nice) (by omega)
  have a2 := uadd_of_lt (cur.user - prev.user + (cur.nice - prev.nice))
    (cur.system - prev.system) (by omega)
  have a3 := uadd_of_lt (cur.user - prev.user + (cur.nice - prev.nice)
    + (cur.system - prev.system)) (cur.idle - prev.idle) (by omega)
  simp only [get_cpu_usage, cpu_percent_reference, e1, e2, e3, e4, a1, a2, a3]
  split_ifs <;> rfl

theorem get_cpu_usage_stores (prev cur : CpuCounters) :
    (get_cpu_usage prev (some cur)).2 = cur := by
  simp only [get_cpu_usage]
  split_ifs <;> rfl

theorem get_cpu_usage_same (cur : CpuCounters) : (get_cpu_usage cur (some cur)).1 = 0 := by
  simp [get_cpu_usage, usub_self, uadd]

/-- C3: for every previous and current counter tuple with each current
counter at least the previous one and the sum of the four deltas below
`2 ^ 64`, `get_cpu_usage` returns the reference value `100 * busy / total`
(`0` when `total = 0`), the value lies in `[0, 100]`, the stored previous
counters afterwards equal the current ones, and a second call with the same
counters returns `0`. -/
theorem get_cpu_usage_reference (prev cur : CpuCounters)
    (hu : prev.user ≤ cur.user) (hn : prev.nice ≤ cur.nice)
    (hs : prev.system ≤ cur.system) (hi : prev.idle ≤ cur.idle)
    (hsum : (cur.user - prev.user) + (cur.nice - prev.nice) + (cur.system - prev.system)
      + (cur.idle - prev.idle) < U64) :
    (get_cpu_usage prev (some cur)).1
      = cpu_percent_reference (cur.user - prev.user) (cur.nice - prev.nice)
          (cur.system - prev.system) (cur.idle - prev.idle) ∧
    0 ≤ (get_cpu_usage prev (some cur)).1 ∧ (get_cpu_usage prev (some cur)).1 ≤ 100 ∧
    (get_cpu_usage prev (some cur)).2 = cur ∧
    (get_cpu_usage (get_cpu_usage prev (some cur)).2 (some cur)).1 = 0 := by
  have href := get_cpu_usage_eq_reference prev cur hu hn hs hi hsum
  refine ⟨href, ?_, ?_, get_cpu_usage_stores prev cur, ?_⟩
  · rw [href]; exact (cpu_percent_reference_range _ _ _ _).1
  · rw [href]; exact (cpu_percent_reference_range _ _ _ _).2
  · rw [get_cpu_usage_stores]; exact get_cpu_usage_same cur

/-- An instance of C3: between two samples the counters advance by
`(30, 0, 20, 150)`, which is 25 percent busy. -/
theorem get_cpu_usage_reference_witness :
    (get_cpu_usage { user := 1000, nice := 5, system := 400, idle := 9000 }
        (some { user := 1030, nice := 5, system := 420, idle := 9150 })).1
      = cpu_percent_reference (1030 - 1000) (5 - 5) (420 - 400) (9150 - 9000) ∧
    cpu_percent_reference (1030 - 1000) (5 - 5) (420 - 400) (9150 - 9000) = 25 ∧
    0 ≤ (get_cpu_usage { user := 1000, nice := 5, system := 400, idle := 9000 }
        (some { user := 1030, nice := 5, system := 420, idle := 9150 })).1 ∧
    (get_cpu_usage { user := 1000, nice := 5, system := 400, idle := 9000 }
        (some { user := 1030, nice := 5, system := 420, idle := 9150 })).1 ≤ 100 ∧
    (get_cpu_usage { user := 1000, nice := 5, system := 400, idle := 9000 }
        (some { user := 1030, nice := 5, system := 420, idle := 9150 })).2
      = { user := 1030, nice := 5, system := 420, idle := 9150 } ∧
    (get_cpu_usage (get_cpu_usage { user := 1000, nice := 5, system := 400, idle := 9000 }
        (some { user := 1030, nice := 5, system := 420, idle := 9150 })).2
        (some { user := 1030, nice := 5, system := 420, idle := 9150 })).1 = 0 := by
  have h := get_cpu_usage_reference { user := 1000, nice := 5, system := 400, idle := 9000 }
    { user := 1030, nice := 5, system := 420, idle := 9150 }
    (by decide) (by decide) (by decide) (by decide) (by norm_num [U64])
  exact ⟨h.1, by norm_num [cpu_percent_reference], h.2⟩

/-- C4 (as amended): on the first call, with the stored previous counters at
zero, the result for counters whose sum is below `2 ^ 64` is the reference
value of the counters themselves,
`100 * (user + nice + system) / (user + nice + system + idle)`, and it is `0`
exactly when `user + nice + system = 0`. -/
theorem get_cpu_usage_first_sample (cur : CpuCounters)
    (hsum : cur.user + cur.nice + cur.system + cur.idle < U64) :
    (get_cpu_usage cpu_initial (some cur)).1
      = cpu_percent_reference cur.user cur.nice cur.system cur.idle ∧
    ((get_cpu_usage cpu_initial (some cur)).1 = 0 ↔ cur.user + cur.nice + cur.system = 0) := by
  have href : (get_cpu_usage cpu_initial (some cur)).1
      = cpu_percent_reference cur.user cur.nice cur.system cur.idle :=
    get_cpu_usage_eq_reference cpu_initial cur (Nat.zero_le _) (Nat.zero_le _)
      (Nat.zero_le _) (Nat.zero_le _) (by simpa [cpu_initial] using hsum)
  refine ⟨href, ?_⟩
  rw [href]
  unfold cpu_percent_reference
  simp only
  split_ifs with h
  · constructor
    · intro _; omega
    · intro _; rfl
  · have hpos : ((cur.user + cur.nice + cur.system + cur.idle : Nat) : ℚ) ≠ 0 := by
      exact_mod_cast h
    rw [div_eq_zero_iff]
    constructor
    · intro hz
      rcases hz with hz | hz
      · have : ((cur.user + cur.nice + cur.system : Nat) : ℚ) = 0 := by
          rcases mul_eq_zero.mp hz with h1 | h1
          · exact h1
          · norm_num at h1
        exact_mod_cast this
      · exact absurd hz hpos
    · intro hz
      left
      rw [hz]
      norm_num

/-- An instance of C4 as amended: the first sample of a host that has been
busy for 150 of 1000 clock ticks since boot. -/
theorem get_cpu_usage_first_sample_witness :
    100 + 0 + 50 + 850 < U64 ∧
    (get_cpu_usage cpu_initial (some { user := 100, nice := 0, system := 50, idle := 850 })).1
      = cpu_percent_reference 100 0 50 850 ∧
    ((get_cpu_usage cpu_initial
        (some { user := 100, nice := 0, system := 50, idle := 850 })).1 = 0
      ↔ 100 + 0 + 50 = 0) :=
  ⟨by norm_num [U64],
    get_cpu_usage_first_sample { user := 100, nice := 0, system := 50, idle := 850 }
      (by norm_num [U64])⟩

/-- C4 as stated fails: with the previous counters at zero and the counters
`(100, 0, 50, 850)` read, the first call returns 15, not 0. -/
theorem get_cpu_usage_first_sample_nonzero :
    (get_cpu_usage cpu_initial (some { user := 100, nice := 0, system := 50, idle := 850 })).1
      = 15 ∧
    ¬ ((get_cpu_usage cpu_initial
        (some { user := 100, nice := 0, system := 50, idle := 850 })).1 = 0) := by
  have h : (get_cpu_usage cpu_initial
      (some { user := 100, nice := 0, system := 50, idle := 850 })).1 = 15 := by
    norm_num [get_cpu_usage, cpu_initial, usub, uadd, U64]
  refine ⟨h, ?_⟩
  rw [h]
  norm_num

theorem used_percent_range (total free : Nat) (ht : total < U64) (hle : free ≤ total) :
    0 ≤ (if total = 0 then (0 : ℚ) else (usub total free : ℚ) * 100 / (total : ℚ)) ∧
    (if total = 0 then (0 : ℚ) else (usub total free : ℚ) * 100 / (total : ℚ)) ≤ 100 := by
  split_ifs with h
  · constructor <;> norm_num
  · rw [usub_of_le total free hle (by omega)]
    have hpos : (0 : ℚ) < (total : ℚ) := by exact_mod_cast Nat.pos_of_ne_zero h
    have hsub : ((total - free : Nat) : ℚ) ≤ (total : ℚ) := by
      exact_mod_cast Nat.sub_le total free
    have hnn : (0 : ℚ) ≤ ((total - free : Nat) : ℚ) := by positivity
    constructor
    · apply div_nonneg
      · positivity
      · exact le_of_lt hpos
    · rw [div_le_iff₀ hpos]
      nlinarith

/-- C7 (as amended): for the readings `(mem_total, mem_available)` that the
scan of `/proc/meminfo` leaves, both below `2 ^ 64`, `get_ram_usage` returns
`(mem_total - mem_available) * 100 / mem_total` with the subtraction taken
modulo `2 ^ 64`, or `0` when `mem_total = 0`, and the result lies in
`[0, 100]` whenever `mem_available ≤ mem_total`; likewise `get_disk_usage`
for `(f_blocks, f_bfree)`, in `[0, 100]` whenever `f_bfree ≤ f_blocks`. -/
theorem usage_percent_bounds (lines : List MemLine) (f_blocks f_bfree : Nat)
    (ht : (scan_meminfo lines (0, 0)).1 < 2 ^ 64)
    (ha : (scan_meminfo lines (0, 0)).2 < 2 ^ 64)
    (hb : f_blocks < 2 ^ 64) (hf : f_bfree < 2 ^ 64) :
    (get_ram_usage (some lines)
      = if (scan_meminfo lines (0, 0)).1 = 0 then 0
        else ((((scan_meminfo lines (0, 0)).1 + (2 ^ 64 - (scan_meminfo lines (0, 0)).2))
          % 2 ^ 64 : Nat) : ℚ) * 100 / ((scan_meminfo lines (0, 0)).1 : ℚ)) ∧
    ((scan_meminfo lines (0, 0)).2 ≤ (scan_meminfo lines (0, 0)).1 →
      0 ≤ get_ram_usage (some lines) ∧ get_ram_usage (some lines) ≤ 100) ∧
    (get_disk_usage (some (f_blocks, f_bfree))
      = if f_blocks = 0 then 0
        else (((f_blocks + (2 ^ 64 - f_bfree)) % 2 ^ 64 : Nat) : ℚ) * 100 / (f_blocks : ℚ)) ∧
    (f_bfree ≤ f_blocks →
      0 ≤ get_disk_usage (some (f_blocks, f_bfree)) ∧
      get_disk_usage (some (f_blocks, f_bfree)) ≤ 100) := by
  refine ⟨?_, ?_, ?_, ?_⟩
  · simp only [get_ram_usage, usub, U64, Nat.mod_eq_of_lt ha]
  · intro hle
    exact used_percent_range _ _ ht hle
  · simp only [get_disk_usage, usub, U64, Nat.mod_eq_of_lt hf]
  · intro hle
    exact used_percent_range _ _ hb hle

/-- An instance of C7 as amended: 16 GB of memory with 4 GB available, and
a root filesystem of 1000 blocks with 250 free. -/
theorem usage_percent_bounds_witness :
    (scan_meminfo [MemLine.mem_total 16000000, MemLine.unrelated,
        MemLine.mem_available 4000000, MemLine.unrelated] (0, 0)).1 < 2 ^ 64 ∧
    (scan_meminfo [MemLine.mem_total 16000000, MemLine.unrelated,
        MemLine.mem_available 4000000, MemLine.unrelated] (0, 0)).2 < 2 ^ 64 ∧
    1000 < 2 ^ 64 ∧ 250 < 2 ^ 64 ∧
    scan_meminfo [MemLine.mem_total 16000000, MemLine.unrelated,
        MemLine.mem_available 4000000, MemLine.unrelated] (0, 0) = (16000000, 4000000) ∧
    get_ram_usage (some [MemLine.mem_total 16000000, MemLine.unrelated,
        MemLine.mem_available 4000000, MemLine.unrelated]) ≤ 100 ∧
    get_disk_usage (some (1000, 250)) ≤ 100 := by
  have h := usage_percent_bounds
    [MemLine.mem_total 16000000, MemLine.unrelated,
      MemLine.mem_available 4000000, MemLine.unrelated] 1000 250
    (by norm_num [scan_meminfo]) (by norm_num [scan_meminfo]) (by norm_num) (by norm_num)
  exact ⟨by norm_num [scan_meminfo], by norm_num [scan_meminfo], by norm_num, by norm_num,
    by decide, (h.2.1 (by norm_num [scan_meminfo])).2, (h.2.2.2 (by norm_num)).2⟩

/-- C7 as stated fails: for the readings `mem_total = 1`,
`mem_available = 2` the unsigned difference wraps to `2 ^ 64 - 1` and
`get_ram_usage` returns `(2 ^ 64 - 1) * 100`, which is above 100; the same
holds for `get_disk_usage` at `f_blocks = 1`, `f_bfree = 2`. -/
theorem usage_percent_above_hundred :
    get_ram_usage (some [MemLine.mem_total 1, MemLine.mem_available 2])
      = (2 ^ 64 - 1) * 100 ∧
    ¬ (get_ram_usage (some [MemLine.mem_total 1, MemLine.mem_available 2]) ≤ 100) ∧
    ¬ (get_disk_usage (some (1, 2)) ≤ 100) := by
  refine ⟨?_, ?_, ?_⟩
  · norm_num [get_ram_usage, scan_meminfo, usub, U64]
  · norm_num [get_ram_usage, scan_meminfo, usub, U64]
  · norm_num [get_disk_usage, usub, U64]

/-! ### Theorems on the process snapshot -/

theorem normalize_of_not_wrapped (s : List Char) (h : wrapped s = false) : normalize s = s := by
  simp [normalize, h]

theorem normalize_length_of_wrapped (s : List Char) (h : wrapped s = true) :
    (normalize s).length = s.length - 2 := by
  simp only [normalize, h, if_true, List.length_drop, List.length_take]
  omega

theorem wrapped_length (s : List Char) (h : wrapped s = true) : 2 < s.length := by
  simp only [wrapped, Bool.and_eq_true, decide_eq_true_eq] at h
  exact h.1.1

theorem normalize_fixed_iff (s : List Char) : normalize s = s ↔ wrapped s = false := by
  constructor
  · intro h
    by_contra hw
    have hw1 : wrapped s = true := by simpa using hw
    have hl := normalize_length_of_wrapped s hw1
    have h2 := wrapped_length s hw1
    rw [h] at hl
    omega
  · exact normalize_of_not_wrapped s

theorem wrapped_normalize (s : List Char) : wrapped (normalize s) = doubly_wrapped s := by
  cases hw : wrapped s with
  | false =>
    rw [normalize_of_not_wrapped s hw, hw]
    symm
    simp only [wrapped, doubly_wrapped] at *
    by_contra hd
    simp only [Bool.not_eq_false, Bool.and_eq_true, decide_eq_true_eq] at hd
    obtain ⟨⟨⟨⟨h4, h0⟩, _⟩, _⟩, hl⟩ := hd
    have h2 : s.length > 2 := by omega
    simp [h2, h0, hl] at hw
  | true =>
    have h2 := wrapped_length s hw
    have hw0 := hw
    simp only [wrapped, Bool.and_eq_true, decide_eq_true_eq] at hw0
    obtain ⟨⟨_, h0⟩, hl⟩ := hw0
    have hlen := normalize_length_of_wrapped s hw
    unfold wrapped doubly_wrapped
    rw [hlen, h0, hl]
    simp only [normalize, hw, if_true]
    by_cases h4 : s.length > 4
    · have e1 : s.length - 2 > 2 := by omega
      have e2 : 1 < s.length - 1 := by omega
      have e3 : s.length - 2 - 1 + 1 = s.length - 2 := by omega
      have e4 : s.length - 2 < s.length - 1 := by omega
      have b1 : 1 < s.length := by omega
      have b2 : s.length - 2 < s.length := by omega
      simp [h4, e1, List.getElem?_drop, List.getElem?_take, e2, e3, e4,
        List.getElem?_eq_getElem b1, List.getElem?_eq_getElem b2]
    · have e1 : ¬ (s.length - 2 > 2) := by omega
      simp [h4, e1]

theorem normalize_idempotent_iff_aux (s : List Char) :
    normalize (normalize s) = normalize s ↔ doubly_wrapped s = false := by
  rw [normalize_fixed_iff, wrapped_normalize]

/-- C5 (as amended): `normalize (normalize s) = normalize s` holds exactly
for the names `s` that are not doubly wrapped (more than 4 characters,
starting with two opening and ending with two closing parentheses); a name
not wrapped in parentheses is returned unchanged; `"(bash)"` becomes
`"bash"`, and `"sh"` and `"()"` are unchanged. -/
theorem normalize_idempotent_iff (s : List Char) :
    (normalize (normalize s) = normalize s ↔ doubly_wrapped s = false) ∧
    (wrapped s = false → normalize s = s) ∧
    normalize "(bash)".toList = "bash".toList ∧
    normalize "sh".toList = "sh".toList ∧
    normalize "()".toList = "()".toList :=
  ⟨normalize_idempotent_iff_aux s, normalize_of_not_wrapped s, by decide, by decide, by decide⟩

/-- An instance of C5 as amended at the name `"(bash)"`, which is wrapped
once. -/
theorem normalize_idempotent_iff_witness :
    doubly_wrapped "(bash)".toList = false ∧
    normalize (normalize "(bash)".toList) = normalize "(bash)".toList ∧
    (wrapped "sh".toList = false → normalize "sh".toList = "sh".toList) :=
  ⟨by decide,
    (normalize_idempotent_iff "(bash)".toList).1.mpr (by decide),
    (normalize_idempotent_iff "sh".toList).2.1⟩

/-- C5 as stated fails: the name `"((sd-pam))"`, 10 non-blank characters,
normalizes to `"(sd-pam)"`, and that normalizes to `"sd-pam"`. -/
theorem normalize_not_idempotent :
    normalize "((sd-pam))".toList = "(sd-pam)".toList ∧
    normalize (normalize "((sd-pam))".toList) = "sd-pam".toList ∧
    ¬ (normalize (normalize "((sd-pam))".toList) = normalize "((sd-pam))".toList) := by
  decide

theorem read_loop_invariant (entries : List DirEntry) :
    ∀ t : ProcTable, t.zombie_count = count_zombies t.processes →
      t.total_processes ≤ MAX_PROCESSES →
      (read_loop entries t).zombie_count = count_zombies (read_loop entries t).processes ∧
      (read_loop entries t).total_processes ≤ MAX_PROCESSES := by
  induction entries with
  | nil => intro t hz hc; exact ⟨hz, hc⟩
  | cons e rest ih =>
    intro t hz hc
    rw [read_loop]
    split_ifs with hpid hcap
    · exact ih t hz hc
    · exact ⟨hz, hc⟩
    · cases hstat : e.stat with
      | cannot_open => exact ih t hz hc
      | scanned assigned pid comm state =>
        apply ih
        · by_cases hZ : state = 'Z'
          · simp [count_zombies, List.countP_append, hZ, hz]
          · simp [count_zombies, List.countP_append, hZ, hz]
        · simp only [ProcTable.total_processes, List.length_append, List.length_singleton] at *
          omega

/-- C9: for every enumeration of entries, of any length, after
`read_processes` the value `zombie_count` equals the number of records among
`processes[0 .. total_processes-1]` whose state is `'Z'`, and
`total_processes ≤ 1024`. -/
theorem read_processes_zombie_count (entries : List DirEntry) :
    (read_processes entries).zombie_count
      = ((read_processes entries).processes.take (read_processes entries).total_processes).countP
          (fun p => p.state = 'Z') ∧
    (read_processes entries).total_processes ≤ 1024 := by
  have h := read_loop_invariant entries { processes := [], zombie_count := 0 } rfl
    (by simp [ProcTable.total_processes])
  refine ⟨?_, h.2⟩
  rw [ProcTable.total_processes, List.take_length]
  exact h.1

/-- C6 does not hold of the code: the entry `1234` whose status file opens
while `fscanf` assigns nothing (`EOF`) still gets a record appended, with the
`pid` of the directory name and whatever the uninitialised `comm` and `state`
held; when that `state` is `'Z'` the zombie counter is incremented.  An entry
whose status file cannot be opened is skipped. -/
theorem read_processes_appends_unparsed (pid : Int) (comm : List Char) (state : Char)
    (cmdline : Option (List Char)) :
    (read_processes [DirEntry.mk 1234 (StatRead.scanned 0 pid comm state) cmdline]).processes
      = [Process.mk 1234 (normalize comm) (read_cmdline cmdline) state] ∧
    (read_processes [DirEntry.mk 1234 (StatRead.scanned 0 pid comm 'Z') cmdline]).zombie_count
      = 1 ∧
    (read_processes [DirEntry.mk 1234 StatRead.cannot_open cmdline]).processes = [] := by
  refine ⟨?_, ?_, ?_⟩
  · simp [read_processes, read_loop, ProcTable.total_processes, MAX_PROCESSES]
  · simp [read_processes, read_loop, ProcTable.total_processes, MAX_PROCESSES]
  · simp [read_processes, read_loop, ProcTable.total_processes, MAX_PROCESSES]

/-- C10 does not hold of the code: in the first tick, with one zombie
process `77` in `/proc`, the `ZOMBIES:` line shows `0` above a snapshot that
holds one record of state `'Z'`; the count `1` is shown in the next tick,
above a snapshot that is then empty. -/
theorem zombies_line_is_stale :
    paint_ticks table_initial
        [[DirEntry.mk 77 (StatRead.scanned 3 77 "(defunct)".toList 'Z') none], []]
      = [Frame.mk 0 [Process.mk 77 "defunct".toList [] 'Z'], Frame.mk 1 []] ∧
    count_zombies [Process.mk 77 "defunct".toList [] 'Z'] = 1 := by
  decide

end Mtop
